import Mathlib

/-!
Shallow embedding of the PinkNoise controller (PinkNoise.ino and its
variants): schedule engine, effective-volume resolution, playback loop,
button handlers, WAV header parsing, the clock-resync latch and the
heart-rate notification callback.
-/

namespace PinkNoise

/-- One schedule entry, from `typedef struct { int startMin, endMin; uint8_t vol; } TimeRange`.
`vol` is a `uint8_t`, modelled as a `Nat` (values pushed are validated to 0..255). -/
structure TimeRange where
  startMin : Int
  endMin : Int
  vol : Nat
  deriving DecidableEq

/-- The part of `struct tm` the sketch reads: `tm_hour` and `tm_min`. -/
structure Tm where
  hour : Nat
  minute : Nat
  deriving DecidableEq

/-- `ti.tm_hour*60 + ti.tm_min`, the current minute of the day. -/
def minuteOfDay (t : Tm) : Int := ((t.hour * 60 + t.minute : Nat) : Int)

/-- The scan in `getScheduledVolume`: first range (in configured order) with
`nowMin >= r.startMin && nowMin < r.endMin` wins; `-1` when none matches. -/
def lookupScheduledVolume : List TimeRange → Int → Int
  | [], _ => -1
  | r :: rest, nowMin =>
    if r.startMin ≤ nowMin ∧ nowMin < r.endMin then (r.vol : Int)
    else lookupScheduledVolume rest nowMin

/-- `getScheduledVolume`: returns `-1` when `getLocalTime` fails (clock
unavailable, modelled as `none`), else the first-match scan over the schedule. -/
def getScheduledVolume (sched : List TimeRange) (clock : Option Tm) : Int :=
  match clock with
  | none => -1
  | some ti => lookupScheduledVolume sched (minuteOfDay ti)

/-- `int effVol = (schedVol>=0)?schedVol:volume;` from `loop`. -/
def effectiveVolume (schedVol manualVol : Int) : Int :=
  if 0 ≤ schedVol then schedVol else manualVol

/-- `bool shouldPlay = (effVol>0 && isPlaying && speakerActive);` from `loop`. -/
def shouldPlay (effVol : Int) (isPlayingFlag speakerActiveFlag : Bool) : Bool :=
  decide (0 < effVol) && isPlayingFlag && speakerActiveFlag

/-- The two manual-volume globals `volume` and `savedVolume`. -/
structure VolumeState where
  volume : Int
  savedVolume : Int
  deriving DecidableEq

/-- Button B handler from `loop`: pause when `volume > 0` (saving the level),
else resume from `savedVolume`. -/
def btnBToggle (s : VolumeState) : VolumeState :=
  if 0 < s.volume then { volume := 0, savedVolume := s.volume }
  else { volume := s.savedVolume, savedVolume := s.savedVolume }

/-- The `ev.push_back(r.startMin); ev.push_back(r.endMin);` loop of
`logNextScheduledChange`. -/
def eventTimes : List TimeRange → List Int
  | [] => []
  | r :: rest => r.startMin :: r.endMin :: eventTimes rest

/-- `std::unique` over a list: removes consecutive duplicate elements. -/
def dedupAdj : List Int → List Int
  | [] => []
  | [a] => [a]
  | a :: b :: rest => if a = b then dedupAdj (b :: rest) else a :: dedupAdj (b :: rest)

/-- `std::sort` then `std::unique`/`erase` over the start/end minutes:
the sorted, de-duplicated event set. -/
def eventSet (sched : List TimeRange) : List Int :=
  dedupAdj (List.insertionSort (· ≤ ·) (eventTimes sched))

/-- `for(int m:ev) if(m>nowMin){ next=m; break; }` with the `-1` sentinel. -/
def firstGreater : List Int → Int → Int
  | [], _ => -1
  | m :: rest, nowMin => if nowMin < m then m else firstGreater rest nowMin

/-- The value computed by `logNextScheduledChange`: `none` when the schedule is
empty or the clock query fails; else the first event strictly after `nowMin`
(`isTomorrow = false`), wrapping to the first event of the sorted set with
`isTomorrow = true` when the sentinel stayed negative. -/
def nextScheduledChange (sched : List TimeRange) (clock : Option Tm) : Option (Int × Bool) :=
  match sched, clock with
  | [], _ => none
  | _ :: _, none => none
  | r :: rest, some ti =>
    let ev := eventSet (r :: rest)
    let nowMin := minuteOfDay ti
    let next := firstGreater ev nowMin
    if next < 0 then
      match ev with
      | [] => none
      | e :: _ => some (e, true)
    else some (next, false)

/-! ### Schedule file parsing (`loadSchedule`) -/

/-- `isspace`, as used by Arduino `String::trim`. -/
def isSpaceChar (c : Char) : Bool :=
  c = ' ' ∨ c = '\t' ∨ c = '\n' ∨ c = '\x0b' ∨ c = '\x0c' ∨ c = '\r'

/-- Arduino `String::trim`: strip leading and trailing whitespace. -/
def trimChars (l : List Char) : List Char :=
  ((l.dropWhile isSpaceChar).reverse.dropWhile isSpaceChar).reverse

/-- `line.startsWith("#")`. -/
def startsWithHash : List Char → Bool
  | '#' :: _ => true
  | _ => false

/-- Index scan used by `String::indexOf`. -/
def indexOfAux (c : Char) : List Char → Nat → Option Nat
  | [], _ => none
  | x :: xs, i => if x = c then some i else indexOfAux c xs (i + 1)

/-- `line.indexOf(ch)`: first index of `ch`, or `-1`. -/
def indexOf (l : List Char) (c : Char) : Int :=
  match indexOfAux c l 0 with
  | none => -1
  | some i => (i : Int)

/-- `line.indexOf(ch, fromIndex)`: first index `≥ fromIndex`, or `-1`; a
negative `fromIndex` (as produced by a failed earlier `indexOf`) wraps to a
huge unsigned value in the Arduino library and yields `-1`. -/
def indexOfFrom (l : List Char) (c : Char) (fr : Int) : Int :=
  if fr < 0 then -1
  else
    match indexOfAux c (l.drop fr.toNat) 0 with
    | none => -1
    | some i => (fr.toNat + i : Nat)

/-- `line.substring(a, b)`: characters of the half-open index range `[a, b)`. -/
def substringChars (l : List Char) (a b : Int) : List Char :=
  (l.take b.toNat).drop a.toNat

/-- `line.substring(a)`: characters from index `a` to the end. -/
def substringFrom (l : List Char) (a : Int) : List Char :=
  l.drop a.toNat

def isDigitChar (c : Char) : Bool := 48 ≤ c.toNat ∧ c.toNat ≤ 57

def natOfDigits (ds : List Char) : Nat :=
  ds.foldl (fun a c => a * 10 + (c.toNat - 48)) 0

/-- One `%d` conversion of `sscanf`: skip whitespace, optional sign, then at
least one decimal digit; `none` on matching failure. Returns the value and the
unconsumed input. -/
def scanInt (l : List Char) : Option (Int × List Char) :=
  let l1 := l.dropWhile isSpaceChar
  match l1 with
  | '-' :: rest =>
    match rest.takeWhile isDigitChar with
    | [] => none
    | ds => some (-(natOfDigits ds : Int), rest.drop ds.length)
  | '+' :: rest =>
    match rest.takeWhile isDigitChar with
    | [] => none
    | ds => some ((natOfDigits ds : Int), rest.drop ds.length)
  | _ =>
    match l1.takeWhile isDigitChar with
    | [] => none
    | ds => some ((natOfDigits ds : Int), l1.drop ds.length)

/-- `sscanf(s, "%d:%d", &a, &b) == 2`: both conversions must succeed, with the
literal `:` matching exactly one input character in between. -/
def scanHHMM (l : List Char) : Option (Int × Int) :=
  match scanInt l with
  | none => none
  | some (a, rest) =>
    match rest with
    | ':' :: rest2 =>
      match scanInt rest2 with
      | none => none
      | some (b, _) => some (a, b)
    | _ => none

/-- `sscanf(s, "%d", &v) == 1`. -/
def scanVol (l : List Char) : Option Int :=
  match scanInt l with
  | none => none
  | some (v, _) => some v

/-- One iteration of the `loadSchedule` line loop: trim; skip comments and
blank lines; locate `-` and the following space; split into start, end and
volume fields; parse each with `sscanf`; validate
`st<en && st>=0 && en<=1440 && vol>=0 && vol<=255`; on success the pushed
entry (the `uint8_t` cast is exact for the validated range). -/
def parseLine (raw : List Char) : Option TimeRange :=
  let line := trimChars raw
  if startsWithHash line || line.isEmpty then none
  else
    let dash := indexOf line '-'
    let sp := indexOfFrom line ' ' dash
    if dash < 0 ∨ sp < 0 then none
    else
      let s1 := substringChars line 0 dash
      let s2 := substringChars line (dash + 1) sp
      let sv := substringFrom line (sp + 1)
      match scanHHMM s1 with
      | none => none
      | some a =>
        match scanHHMM s2 with
        | none => none
        | some b =>
          match scanVol sv with
          | none => none
          | some vol =>
            let st := a.1 * 60 + a.2
            let en := b.1 * 60 + b.2
            if st < en ∧ 0 ≤ st ∧ en ≤ 1440 ∧ 0 ≤ vol ∧ vol ≤ 255 then
              some ⟨st, en, vol.toNat⟩
            else none

/-- The `while (file.available())` loop of `loadSchedule`, accumulating
`schedule.push_back`. -/
def loadScheduleLoop : List (List Char) → List TimeRange → List TimeRange
  | [], acc => acc
  | l :: ls, acc =>
    match parseLine l with
    | none => loadScheduleLoop ls acc
    | some r => loadScheduleLoop ls (acc ++ [r])

/-- `loadSchedule` applied to the lines of an opened file: the resulting
schedule and the returned flag `!schedule.empty()`. -/
def loadSchedule (lines : List (List Char)) : List TimeRange × Bool :=
  let sched := loadScheduleLoop lines []
  (sched, !sched.isEmpty)

/-! ### WAV header parsing (`openWav`) -/

/-- The 4-byte container magic `"RIFF"`. -/
def riffMagic : List Nat := [82, 73, 70, 70]

/-- `wavFile.read()` after a seek to byte `i` (for the in-range reads the
sketch performs on a ≥ 44-byte file). -/
def fileByte (bs : List Nat) (i : Nat) : Nat := bs.getD i 0

/-- The format globals set by `openWav`, plus the read cursor it leaves. -/
structure WavState where
  numChannels : Nat
  sampleRate : Nat
  bitsPerSample : Nat
  pos : Nat
  deriving DecidableEq

/-- `openWav`: `none` when the file cannot be opened or bytes 0..3 differ from
`"RIFF"`; otherwise the fixed-offset little-endian reads of the sketch, with
each assignment truncated to the declared C type (`numChannels` is a
`uint8_t`, `bitsPerSample` a `uint16_t`, `sampleRate` a `uint32_t`), and the
cursor seeked to 44. Sequenced reads are modelled left to right. -/
def openWav (file : Option (List Nat)) : Option WavState :=
  match file with
  | none => none
  | some bs =>
    if bs.take 4 = riffMagic then
      some
        { numChannels :=
            (fileByte bs 22 + fileByte bs 23 * 256) % 256
          sampleRate :=
            (fileByte bs 24 + fileByte bs 25 * 256 + fileByte bs 26 * 65536 +
              fileByte bs 27 * 16777216) % 4294967296
          bitsPerSample := (fileByte bs 34 + fileByte bs 35 * 256) % 65536
          pos := 44 }
    else none

/-- A concrete 44-byte header whose channel field at offsets 22/23 is the
little-endian value 258 (low byte 2, high byte 1). -/
def exWavBytes : List Nat :=
  [82, 73, 70, 70] ++ List.replicate 18 0 ++ [2, 1] ++ [68, 172, 0, 0] ++
    List.replicate 6 0 ++ [16, 0] ++ List.replicate 8 0

/-! ### Playback loop (gated tick) -/

/-- `wavFile.seek(44)`: the first payload byte. -/
def dataStart : Int := 44

/-- One gated playback tick over the file cursor, from `loop`: when
`wavFile.available()` (cursor before end of the 44-byte header plus `L`
payload bytes), read up to `C` bytes and emit the chunk when the read returned
bytes; otherwise `wavFile.seek(44)` and emit nothing. Returns the new cursor
and whether a chunk was emitted. -/
def playTick (L C : Nat) (cur : Int) : Int × Bool :=
  if cur < 44 + (L : Int) then
    let r := min (C : Int) (44 + (L : Int) - cur)
    (cur + r, decide (0 < r))
  else (dataStart, false)

/-- The cursor after `n` gated ticks, starting from `dataStart`. -/
def cursorAfter (L C : Nat) : Nat → Int
  | 0 => dataStart
  | n + 1 => (playTick L C (cursorAfter L C n)).1

/-- Whether tick `n` (0-based) emits a chunk. -/
def emitsAt (L C : Nat) (n : Nat) : Bool := (playTick L C (cursorAfter L C n)).2

/-- Number of chunks emitted during the first `n` gated ticks. -/
def emitCount (L C : Nat) : Nat → Nat
  | 0 => 0
  | n + 1 => emitCount L C n + (if emitsAt L C n then 1 else 0)

/-- `ceil(L/C)` over naturals. -/
def ceilChunks (L C : Nat) : Nat := (L + C - 1) / C

/-! ### Clock resync latch (variant `loop`, part_000) -/

/-- The globals `timeSyncedAfterStop` and `wasPlayingLastLoop`. -/
structure SyncState where
  timeSyncedAfterStop : Bool
  wasPlayingLastLoop : Bool
  deriving DecidableEq

/-- Initial values of the two globals. -/
def initSyncState : SyncState := ⟨false, false⟩

/-- The resync portion of one `loop` iteration: resync exactly when
`!shouldPlay && !timeSyncedAfterStop` (setting the latch), clear the latch on
a `shouldPlay && !wasPlayingLastLoop` transition, then record
`wasPlayingLastLoop = shouldPlay`. Returns the new state and whether a resync
was performed this tick. -/
def syncTick (st : SyncState) (play : Bool) : SyncState × Bool :=
  let resync := !play && !st.timeSyncedAfterStop
  let latch1 := if resync then true else st.timeSyncedAfterStop
  let latch2 := if play && !st.wasPlayingLastLoop then false else latch1
  (⟨latch2, play⟩, resync)

/-- The latch state before tick `n`, given the per-tick `shouldPlay` inputs. -/
def syncStateAfter (plays : List Bool) : Nat → SyncState
  | 0 => initSyncState
  | n + 1 => (syncTick (syncStateAfter plays n) (plays.getD n false)).1

/-- Whether tick `n` performs a clock resync. -/
def resyncAt (plays : List Bool) (n : Nat) : Bool :=
  (syncTick (syncStateAfter plays n) (plays.getD n false)).2

/-! ### Heart-rate notification callback -/

/-- The state `hrNotifyCallback` can reach: the append-only reading log and
the link-state flag `doConnect` shared with the BLE callbacks. -/
structure HrState where
  hrLog : List (Tm × Nat)
  doConnect : Bool
  deriving DecidableEq

/-- `hrNotifyCallback`: drop the frame when `length < 2` or the log file is
not open; otherwise read `pData[1]` and, when the clock query succeeds, append
one `timestamp,bpm` record. No other state is touched. -/
def hrNotifyCallback (st : HrState) (payload : List Nat) (hrLogOpen : Bool)
    (clock : Option Tm) : HrState :=
  if payload.length < 2 ∨ hrLogOpen = false then st
  else
    match clock with
    | none => st
    | some now => { st with hrLog := st.hrLog ++ [(now, payload.getD 1 0)] }

/-! ## Helper lemmas -/

theorem lookup_eq_neg_one_iff (sched : List TimeRange) (m : Int) :
    lookupScheduledVolume sched m = -1 ↔
      ∀ r ∈ sched, ¬(r.startMin ≤ m ∧ m < r.endMin) := by
  induction sched with
  | nil => simp [lookupScheduledVolume]
  | cons r rest ih =>
    by_cases h : r.startMin ≤ m ∧ m < r.endMin
    · simp only [lookupScheduledVolume, if_pos h]
      constructor
      · intro hv
        have h0 : (0 : Int) ≤ (r.vol : Int) := Int.natCast_nonneg _
        omega
      · intro hall
        exact absurd h (hall r (List.mem_cons_self r rest))
    · simp only [lookupScheduledVolume, if_neg h]
      rw [ih, List.forall_mem_cons]
      exact (and_iff_right h).symm

theorem lookup_first_match (m : Int) :
    ∀ (pre : List TimeRange) (r : TimeRange) (post : List TimeRange),
      (r.startMin ≤ m ∧ m < r.endMin) →
      (∀ q ∈ pre, ¬(q.startMin ≤ m ∧ m < q.endMin)) →
      lookupScheduledVolume (pre ++ r :: post) m = (r.vol : Int) := by
  intro pre
  induction pre with
  | nil =>
    intro r post hr _
    simp [lookupScheduledVolume, hr]
  | cons q pre2 ih =>
    intro r post hr hpre
    simp only [List.cons_append, lookupScheduledVolume]
    rw [if_neg (hpre q (List.mem_cons_self q pre2))]
    exact ih r post hr (fun q2 hq2 => hpre q2 (List.mem_cons_of_mem q hq2))

/-! ## Claim theorems -/

/-- C1: each tick, the effective volume is the scheduled volume when the
schedule engine reports an applicable range (non-negative value) and the
manual volume otherwise, and playback is gated on exactly
`effective > 0 AND isPlaying AND speakerActive`; with schedule
09:00-17:00 volume 60, at 10:00 the effective volume is 60 for every manual
volume, and at 20:00 with manual volume 30 it is 30. -/
theorem effective_volume_resolution :
    ∀ (schedVol manualVol : Int) (p s : Bool),
      (0 ≤ schedVol → effectiveVolume schedVol manualVol = schedVol) ∧
      (schedVol < 0 → effectiveVolume schedVol manualVol = manualVol) ∧
      (shouldPlay (effectiveVolume schedVol manualVol) p s = true ↔
        0 < effectiveVolume schedVol manualVol ∧ p = true ∧ s = true) ∧
      (∀ mv : Int,
        effectiveVolume (getScheduledVolume [⟨540, 1020, 60⟩] (some ⟨10, 0⟩)) mv = 60) ∧
      effectiveVolume (getScheduledVolume [⟨540, 1020, 60⟩] (some ⟨20, 0⟩)) 30 = 30 := by
  intro schedVol manualVol p s
  refine ⟨fun h => if_pos h, fun h => if_neg (by omega), ?_, fun mv => ?_, by decide⟩
  · simp [shouldPlay, and_assoc]
  · have h60 : getScheduledVolume [⟨540, 1020, 60⟩] (some ⟨10, 0⟩) = 60 := by decide
    rw [h60]
    norm_num [effectiveVolume]

/-- Closed witness for C1 at scheduled volume 60, manual 30, both flags set. -/
theorem effective_volume_resolution_witness :
    effectiveVolume 60 30 = 60 ∧ effectiveVolume (-1) 30 = 30 ∧
      (shouldPlay (effectiveVolume 60 30) true true = true ↔
        0 < effectiveVolume 60 30 ∧ true = true ∧ true = true) ∧
      effectiveVolume (getScheduledVolume [⟨540, 1020, 60⟩] (some ⟨10, 0⟩)) 25 = 60 :=
  ⟨(effective_volume_resolution 60 30 true true).1 (by decide),
    (effective_volume_resolution (-1) 30 true true).2.1 (by decide),
    (effective_volume_resolution 60 30 true true).2.2.1,
    (effective_volume_resolution 60 30 true true).2.2.2.1 25⟩

/-- C2: the scheduled-volume lookup returns the volume of the
earliest-configured range whose half-open interval contains the current
minute, reports no override (-1) exactly when no range contains it, and
insertion order decides ties among overlapping ranges. -/
theorem scheduled_volume_first_match :
    ∀ (sched : List TimeRange) (m : Int),
      (lookupScheduledVolume sched m = -1 ↔
        ∀ r ∈ sched, ¬(r.startMin ≤ m ∧ m < r.endMin)) ∧
      (∀ (pre : List TimeRange) (r : TimeRange) (post : List TimeRange),
        sched = pre ++ r :: post →
        (r.startMin ≤ m ∧ m < r.endMin) →
        (∀ q ∈ pre, ¬(q.startMin ≤ m ∧ m < q.endMin)) →
        lookupScheduledVolume sched m = (r.vol : Int)) ∧
      (∀ ti : Tm, getScheduledVolume sched (some ti) =
        lookupScheduledVolume sched (minuteOfDay ti)) ∧
      lookupScheduledVolume [⟨540, 1020, 60⟩, ⟨600, 700, 10⟩] 620 = 60 := by
  intro sched m
  refine ⟨lookup_eq_neg_one_iff sched m, ?_, fun ti => rfl, by decide⟩
  intro pre r post heq hr hpre
  rw [heq]
  exact lookup_first_match m pre r post hr hpre

/-- Closed witness for C2: overlapping schedule, minute 620; the first
configured range wins and a non-matching minute reports -1. -/
theorem scheduled_volume_first_match_witness :
    lookupScheduledVolume [⟨540, 1020, 60⟩, ⟨600, 700, 10⟩] 620 = ((60 : Nat) : Int) ∧
      lookupScheduledVolume [⟨540, 1020, 60⟩] 1200 = -1 :=
  ⟨(scheduled_volume_first_match [⟨540, 1020, 60⟩, ⟨600, 700, 10⟩] 620).2.1
      [] ⟨540, 1020, 60⟩ [⟨600, 700, 10⟩] rfl (by decide) (by decide),
    ((scheduled_volume_first_match [⟨540, 1020, 60⟩] 1200).1).mpr (by decide)⟩

/-- C4: from any positive manual volume v, Toggle pauses (volume 0, saved v)
and a second Toggle restores volume v: double-toggle is the identity on the
manual volume. -/
theorem toggle_pause_resume_roundtrip :
    ∀ s : VolumeState, 0 < s.volume →
      (btnBToggle s).volume = 0 ∧
      (btnBToggle s).savedVolume = s.volume ∧
      (btnBToggle (btnBToggle s)).volume = s.volume := by
  intro s h
  simp [btnBToggle, h]

/-- Closed witness for C4 at manual volume 40. -/
theorem toggle_pause_resume_roundtrip_witness :
    (btnBToggle ⟨40, 16⟩).volume = 0 ∧
      (btnBToggle ⟨40, 16⟩).savedVolume = (⟨40, 16⟩ : VolumeState).volume ∧
      (btnBToggle (btnBToggle ⟨40, 16⟩)).volume = (⟨40, 16⟩ : VolumeState).volume :=
  toggle_pause_resume_roundtrip ⟨40, 16⟩ (by decide)

/-- C9: a sensor notification payload shorter than 2 bytes writes no reading
record and changes no link state: the callback leaves the whole state
untouched. -/
theorem short_payload_silently_dropped :
    ∀ (st : HrState) (payload : List Nat) (hrLogOpen : Bool) (clock : Option Tm),
      payload.length < 2 →
      hrNotifyCallback st payload hrLogOpen clock = st ∧
      (hrNotifyCallback st payload hrLogOpen clock).hrLog = st.hrLog ∧
      (hrNotifyCallback st payload hrLogOpen clock).doConnect = st.doConnect := by
  intro st payload hrLogOpen clock h
  have heq : hrNotifyCallback st payload hrLogOpen clock = st := by
    simp [hrNotifyCallback, h]
  exact ⟨heq, by rw [heq], by rw [heq]⟩

/-- Closed witness for C9: a 1-byte payload on a connected, logging state. -/
theorem short_payload_silently_dropped_witness :
    hrNotifyCallback ⟨[], true⟩ [6] true (some ⟨12, 0⟩) = ⟨[], true⟩ :=
  (short_payload_silently_dropped ⟨[], true⟩ [6] true (some ⟨12, 0⟩) (by decide)).1

/-- C10: a failed clock query makes the scheduled-volume lookup return the
same -1 as a non-matching schedule, so the effective volume silently falls
back to the manual volume; clock failure is indistinguishable from a
non-matching schedule. -/
theorem clock_failure_manual_fallback :
    ∀ (sched : List TimeRange) (manualVol : Int) (ti : Tm),
      (∀ r ∈ sched, ¬(r.startMin ≤ minuteOfDay ti ∧ minuteOfDay ti < r.endMin)) →
      getScheduledVolume sched none = -1 ∧
      getScheduledVolume sched (some ti) = getScheduledVolume sched none ∧
      effectiveVolume (getScheduledVolume sched none) manualVol = manualVol := by
  intro sched manualVol ti hnone
  refine ⟨rfl, ?_, ?_⟩
  · show lookupScheduledVolume sched (minuteOfDay ti) = -1
    exact (lookup_eq_neg_one_iff sched (minuteOfDay ti)).mpr hnone
  · show effectiveVolume (-1) manualVol = manualVol
    norm_num [effectiveVolume]

/-- Closed witness for C10: schedule 09:00-17:00, non-matching time 20:00,
manual volume 30. -/
theorem clock_failure_manual_fallback_witness :
    getScheduledVolume [⟨540, 1020, 60⟩] none = -1 ∧
      getScheduledVolume [⟨540, 1020, 60⟩] (some ⟨20, 0⟩) =
        getScheduledVolume [⟨540, 1020, 60⟩] none ∧
      effectiveVolume (getScheduledVolume [⟨540, 1020, 60⟩] none) 30 = 30 :=
  clock_failure_manual_fallback [⟨540, 1020, 60⟩] 30 ⟨20, 0⟩ (by decide)

theorem dedupAdj_sublist (l : List Int) : List.Sublist (dedupAdj l) l := by
  induction l with
  | nil => simp [dedupAdj]
  | cons a t ih =>
    cases t with
    | nil => simp [dedupAdj]
    | cons b t2 =>
      simp only [dedupAdj]
      by_cases hab : a = b
      · rw [if_pos hab]
        exact ih.cons a
      · rw [if_neg hab]
        exact ih.cons₂ a

theorem mem_dedupAdj (x : Int) (l : List Int) : x ∈ dedupAdj l ↔ x ∈ l := by
  constructor
  · exact fun h => (dedupAdj_sublist l).subset h
  · induction l with
    | nil => simp
    | cons a t ih =>
      cases t with
      | nil => simp [dedupAdj]
      | cons b t2 =>
        intro hx
        simp only [dedupAdj]
        by_cases hab : a = b
        · rw [if_pos hab]
          apply ih
          rcases List.mem_cons.mp hx with h1 | h2
          · rw [h1, hab]
            exact List.mem_cons_self b t2
          · exact h2
        · rw [if_neg hab]
          rcases List.mem_cons.mp hx with h1 | h2
          · rw [h1]
            exact List.mem_cons_self a _
          · exact List.mem_cons_of_mem a (ih h2)

theorem sorted_eventSet (sched : List TimeRange) :
    (eventSet sched).Sorted (· ≤ ·) :=
  List.Pairwise.sublist (dedupAdj_sublist _) (List.sorted_insertionSort _ _)

theorem mem_eventSet (x : Int) (sched : List TimeRange) :
    x ∈ eventSet sched ↔ x ∈ eventTimes sched := by
  rw [eventSet, mem_dedupAdj]
  exact (List.perm_insertionSort _ _).mem_iff

theorem firstGreater_eq_min_gt :
    ∀ (l : List Int), l.Sorted (· ≤ ·) → ∀ (now m : Int), m ∈ l → now < m →
      (∀ e ∈ l, now < e → m ≤ e) → firstGreater l now = m := by
  intro l
  induction l with
  | nil => simp
  | cons a t ih =>
    intro hs now m hm hgt hmin
    simp only [firstGreater]
    by_cases ha : now < a
    · rw [if_pos ha]
      have h1 : m ≤ a := hmin a (List.mem_cons_self a t) ha
      rcases List.mem_cons.mp hm with h2 | h2
      · omega
      · have h3 : a ≤ m := List.rel_of_sorted_cons hs m h2
        omega
    · rw [if_neg ha]
      rcases List.mem_cons.mp hm with h2 | h2
      · omega
      · exact ih hs.of_cons now m h2 hgt
          (fun e he hne => hmin e (List.mem_cons_of_mem a he) hne)

theorem firstGreater_of_none :
    ∀ (l : List Int) (now : Int), (∀ e ∈ l, e ≤ now) → firstGreater l now = -1 := by
  intro l now
  induction l with
  | nil => intro _; rfl
  | cons a t ih =>
    intro h
    simp only [firstGreater]
    rw [if_neg (by have := h a (List.mem_cons_self a t); omega)]
    exact ih (fun e he => h e (List.mem_cons_of_mem a he))

/-- C5: for a non-empty schedule, the next-change computation returns the
smallest element of the event set strictly greater than the current minute
with isTomorrow false, and when no event is strictly greater it wraps to the
smallest event with isTomorrow true; with events 60/120/480, now=500 yields
(60, true) and now=30 yields (60, false). -/
theorem next_change_wraps (sched : List TimeRange) (ti : Tm) (hne : sched ≠ []) :
    (∀ m : Int, m ∈ eventTimes sched → minuteOfDay ti < m →
      (∀ e ∈ eventTimes sched, minuteOfDay ti < e → m ≤ e) →
      nextScheduledChange sched (some ti) = some (m, false)) ∧
    ((∀ e ∈ eventTimes sched, e ≤ minuteOfDay ti) →
      ∀ m : Int, m ∈ eventTimes sched → (∀ e ∈ eventTimes sched, m ≤ e) →
      nextScheduledChange sched (some ti) = some (m, true)) ∧
    nextScheduledChange [⟨60, 120, 5⟩, ⟨120, 480, 7⟩] (some ⟨8, 20⟩) = some (60, true) ∧
    nextScheduledChange [⟨60, 120, 5⟩, ⟨120, 480, 7⟩] (some ⟨0, 30⟩) = some (60, false) := by
  obtain ⟨r0, t0, rfl⟩ : ∃ r0 t0, sched = r0 :: t0 := by
    cases sched with
    | nil => exact absurd rfl hne
    | cons a b => exact ⟨a, b, rfl⟩
  refine ⟨?_, ?_, by decide, by decide⟩
  · intro m hm hgt hmin
    have hfg : firstGreater (eventSet (r0 :: t0)) (minuteOfDay ti) = m :=
      firstGreater_eq_min_gt _ (sorted_eventSet _) _ m
        ((mem_eventSet m _).mpr hm) hgt
        (fun e he hgt2 => hmin e ((mem_eventSet e _).mp he) hgt2)
    have hnow : 0 ≤ minuteOfDay ti := Int.natCast_nonneg _
    simp only [nextScheduledChange]
    rw [hfg, if_neg (by omega)]
  · intro hall m hm hminall
    have hfg : firstGreater (eventSet (r0 :: t0)) (minuteOfDay ti) = -1 :=
      firstGreater_of_none _ _ (fun e he => hall e ((mem_eventSet e _).mp he))
    simp only [nextScheduledChange]
    rw [hfg, if_pos (by omega)]
    cases hEv : eventSet (r0 :: t0) with
    | nil =>
      exfalso
      have hmem : r0.startMin ∈ eventSet (r0 :: t0) :=
        (mem_eventSet _ _).mpr (by simp [eventTimes])
      rw [hEv] at hmem
      exact absurd hmem (List.not_mem_nil _)
    | cons e rest =>
      have hem : e ∈ eventSet (r0 :: t0) := by
        rw [hEv]
        exact List.mem_cons_self e rest
      have h1 : m ≤ e := hminall e ((mem_eventSet e _).mp hem)
      have hm2 : m ∈ eventSet (r0 :: t0) := (mem_eventSet m _).mpr hm
      rw [hEv] at hm2
      have hsorted := sorted_eventSet (r0 :: t0)
      rw [hEv] at hsorted
      have h2 : e ≤ m := by
        rcases List.mem_cons.mp hm2 with h3 | h3
        · omega
        · exact List.rel_of_sorted_cons hsorted m h3
      have hme : e = m := by omega
      rw [hme]

/-- Closed witness for C5: the two-range schedule with event set 60/120/480,
applied at 08:20 (minute 500, wrap case). -/
theorem next_change_wraps_witness :
    ([⟨60, 120, 5⟩, ⟨120, 480, 7⟩] : List TimeRange) ≠ [] ∧
      nextScheduledChange [⟨60, 120, 5⟩, ⟨120, 480, 7⟩] (some ⟨8, 20⟩) = some (60, true) :=
  ⟨by decide,
    (next_change_wraps [⟨60, 120, 5⟩, ⟨120, 480, 7⟩] ⟨8, 20⟩ (by decide)).2.1
      (by decide) 60 (by decide) (by decide)⟩

theorem latch_persists (plays : List Bool) (n m : Nat) (hnm : n ≤ m)
    (hl : (syncStateAfter plays n).timeSyncedAfterStop = true)
    (hq : ∀ k, n ≤ k → k < m → plays.getD k false = false) :
    (syncStateAfter plays m).timeSyncedAfterStop = true := by
  induction m, hnm using Nat.le_induction with
  | base => exact hl
  | succ m hm ih =>
    have hprev : (syncStateAfter plays m).timeSyncedAfterStop = true :=
      ih (fun k h1 h2 => hq k h1 (by omega))
    have hin : plays.getD m false = false := hq m hm (by omega)
    show (syncTick (syncStateAfter plays m) (plays.getD m false)).1.timeSyncedAfterStop = true
    rw [hin]
    simp [syncTick, hprev]

theorem resync_sets_latch (plays : List Bool) (i : Nat)
    (h : resyncAt plays i = true) :
    (syncStateAfter plays (i + 1)).timeSyncedAfterStop = true := by
  unfold resyncAt syncTick at h
  simp only [Bool.and_eq_true, Bool.not_eq_true'] at h
  show (syncTick (syncStateAfter plays i) (plays.getD i false)).1.timeSyncedAfterStop = true
  rw [h.1]
  simp [syncTick, h.2]

/-- C8: at most one clock resync per stop episode — between any two resync
ticks there is a tick on which playback was on (`shouldPlay` true), because
the latch set by the first resync can only be cleared by a transition back
into playing. -/
theorem resync_once_per_stop_episode (plays : List Bool) (i j : Nat)
    (hij : i < j) (hi : resyncAt plays i = true) (hj : resyncAt plays j = true) :
    ∃ k, i < k ∧ k < j ∧ plays.getD k false = true := by
  by_contra hcon
  push_neg at hcon
  have hquiet : ∀ k, i + 1 ≤ k → k < j → plays.getD k false = false := by
    intro k h1 h2
    simpa using hcon k (by omega) h2
  have hlatchj : (syncStateAfter plays j).timeSyncedAfterStop = true :=
    latch_persists plays (i + 1) j hij (resync_sets_latch plays i hi) hquiet
  unfold resyncAt syncTick at hj
  simp only [Bool.and_eq_true, Bool.not_eq_true'] at hj
  rw [hlatchj] at hj
  exact absurd hj.2 (by decide)

/-- Closed witness for C8: resyncs at ticks 0 and 2 force a playing tick in
between (tick 1). -/
theorem resync_once_per_stop_episode_witness :
    resyncAt [false, true, false] 0 = true ∧
      resyncAt [false, true, false] 2 = true ∧
      ∃ k, 0 < k ∧ k < 2 ∧ [false, true, false].getD k false = true :=
  ⟨by decide, by decide,
    resync_once_per_stop_episode [false, true, false] 0 2 (by decide)
      (by decide) (by decide)⟩

theorem fileByte_lt (bs : List Nat) (hb : ∀ b ∈ bs, b < 256) (i : Nat)
    (hi : i < bs.length) : fileByte bs i < 256 := by
  have hm : bs.getD i 0 ∈ bs := by
    rw [List.getD_eq_getElem bs 0 hi]
    exact List.getElem_mem hi
  exact hb _ hm

/-- C7 (amended): opening fails exactly when the file cannot be opened or its
first 4 bytes differ from "RIFF"; on success the sample rate is the 4-byte
little-endian field at offset 24 and the bits-per-sample the 2-byte
little-endian field at offset 34, the cursor is left at byte 44, but the
channel count is only the LOW byte of the 2-byte little-endian field at
offset 22 (the assignment truncates to a `uint8_t`). -/
theorem wav_header_fixed_offsets (bs : List Nat) (hlen : 44 ≤ bs.length)
    (hb : ∀ b ∈ bs, b < 256) :
    openWav none = none ∧
    (openWav (some bs) = none ↔ bs.take 4 ≠ riffMagic) ∧
    (bs.take 4 = riffMagic →
      openWav (some bs) = some
        ⟨fileByte bs 22,
          fileByte bs 24 + fileByte bs 25 * 256 + fileByte bs 26 * 65536 +
            fileByte bs 27 * 16777216,
          fileByte bs 34 + fileByte bs 35 * 256, 44⟩) := by
  have h22 := fileByte_lt bs hb 22 (by omega)
  have h24 := fileByte_lt bs hb 24 (by omega)
  have h25 := fileByte_lt bs hb 25 (by omega)
  have h26 := fileByte_lt bs hb 26 (by omega)
  have h27 := fileByte_lt bs hb 27 (by omega)
  have h34 := fileByte_lt bs hb 34 (by omega)
  have h35 := fileByte_lt bs hb 35 (by omega)
  refine ⟨rfl, ?_, ?_⟩
  · by_cases hmagic : bs.take 4 = riffMagic
    · simp [openWav, hmagic]
    · simp [openWav, hmagic]
  · intro hmagic
    simp only [openWav, if_pos hmagic, Option.some.injEq, WavState.mk.injEq, and_true]
    refine ⟨by omega, by omega, by omega⟩

/-- Counterexample for C7 as stated: a concrete RIFF header whose 2-byte
little-endian field at offsets 22/23 has value 258, while the code's channel
count comes out as 2 (the low byte): the channel count is not read as the
full 2-byte little-endian field. -/
theorem wav_channels_two_byte_counterexample :
    (openWav (some exWavBytes)).map (fun w => w.numChannels) = some 2 ∧
      fileByte exWavBytes 22 + fileByte exWavBytes 23 * 256 = 258 ∧
      (2 : Nat) ≠ 258 := by decide

/-- Closed witness for C7 (amended) at the concrete 44-byte header. -/
theorem wav_header_fixed_offsets_witness :
    44 ≤ exWavBytes.length ∧
      openWav (some exWavBytes) = some
        ⟨fileByte exWavBytes 22,
          fileByte exWavBytes 24 + fileByte exWavBytes 25 * 256 +
            fileByte exWavBytes 26 * 65536 + fileByte exWavBytes 27 * 16777216,
          fileByte exWavBytes 34 + fileByte exWavBytes 35 * 256, 44⟩ :=
  ⟨by decide,
    (wav_header_fixed_offsets exWavBytes (by decide) (by decide)).2.2 (by decide)⟩

theorem ceil_mul_ge (L C : Nat) (hC : 0 < C) : L ≤ ceilChunks L C * C := by
  have hd := Nat.div_add_mod (L + C - 1) C
  have hm : (L + C - 1) % C < C := Nat.mod_lt _ hC
  unfold ceilChunks
  rw [Nat.mul_comm]
  generalize hp : C * ((L + C - 1) / C) = p at hd ⊢
  omega

theorem lt_ceil_mul (L C k : Nat) (hC : 0 < C) (hk : k < ceilChunks L C) :
    k * C < L := by
  by_contra hcon
  push_neg at hcon
  rw [Nat.mul_comm] at hcon
  have hle : ceilChunks L C ≤ k := by
    unfold ceilChunks
    have h1 : L + C - 1 ≤ C - 1 + C * k := by
      generalize hp : C * k = p at hcon ⊢
      omega
    calc (L + C - 1) / C ≤ (C - 1 + C * k) / C := Nat.div_le_div_right h1
      _ = (C - 1) / C + k := Nat.add_mul_div_left _ _ hC
      _ = k := by rw [Nat.div_eq_of_lt (by omega)]; omega
  omega

theorem playTick_avail (L C : Nat) (cur : Int) (h : cur < 44 + (L : Int)) :
    playTick L C cur =
      (cur + min (C : Int) (44 + (L : Int) - cur),
        decide (0 < min (C : Int) (44 + (L : Int) - cur))) := by
  unfold playTick
  rw [if_pos h]

theorem playTick_end (L C : Nat) (cur : Int) (h : ¬ cur < 44 + (L : Int)) :
    playTick L C cur = (dataStart, false) := by
  unfold playTick
  rw [if_neg h]

theorem cursorAfter_min (L C : Nat) (hC : 0 < C) :
    ∀ k, k ≤ ceilChunks L C →
      cursorAfter L C k = 44 + ((min (k * C) L : Nat) : Int) := by
  intro k
  induction k with
  | zero => intro _; simp [cursorAfter, dataStart]
  | succ k ih =>
    intro hk
    have hkC : k * C < L := lt_ceil_mul L C k hC (by omega)
    have hcur : cursorAfter L C k = 44 + ((k * C : Nat) : Int) := by
      rw [ih (by omega), Nat.min_eq_left (Nat.le_of_lt hkC)]
    show (playTick L C (cursorAfter L C k)).1 = _
    rw [hcur, Nat.succ_mul]
    generalize hA : k * C = a at hkC ⊢
    rw [playTick_avail L C _ (by omega)]
    push_cast [Nat.cast_min]
    omega

theorem emits_lt_ceil (L C : Nat) (hC : 0 < C) :
    ∀ k, k < ceilChunks L C → emitsAt L C k = true := by
  intro k hk
  have hkC : k * C < L := lt_ceil_mul L C k hC hk
  have hcur : cursorAfter L C k = 44 + ((k * C : Nat) : Int) := by
    rw [cursorAfter_min L C hC k (by omega), Nat.min_eq_left (Nat.le_of_lt hkC)]
  unfold emitsAt
  rw [hcur]
  generalize hA : k * C = a at hkC hcur ⊢
  rw [playTick_avail L C _ (by omega)]
  simp only [decide_eq_true_eq]
  have hC2 : (0 : Int) < (C : Int) := by exact_mod_cast hC
  have hL2 : ((a : Nat) : Int) < (L : Int) := by exact_mod_cast hkC
  omega

theorem emitCount_le_ceil (L C : Nat) (hC : 0 < C) :
    ∀ n, n ≤ ceilChunks L C → emitCount L C n = n := by
  intro n
  induction n with
  | zero => intro _; rfl
  | succ n ih =>
    intro hn
    show emitCount L C n + (if emitsAt L C n then 1 else 0) = n + 1
    rw [ih (by omega), emits_lt_ceil L C hC n (by omega)]
    rfl

theorem cursor_at_ceil (L C : Nat) (hC : 0 < C) :
    cursorAfter L C (ceilChunks L C) = 44 + (L : Int) := by
  rw [cursorAfter_min L C hC _ (Nat.le_refl _),
    Nat.min_eq_right (ceil_mul_ge L C hC)]

theorem cursor_nonneg (L C : Nat) : ∀ n, 0 ≤ cursorAfter L C n := by
  intro n
  induction n with
  | zero => simp [cursorAfter, dataStart]
  | succ n ih =>
    show 0 ≤ (playTick L C (cursorAfter L C n)).1
    unfold playTick
    split
    · next h =>
      have hC2 : (0 : Int) ≤ (C : Int) := Int.natCast_nonneg _
      simp only []
      omega
    · decide

/-- C3: a run of gated playback ticks over an L-byte payload with chunk size
C emits a chunk on each of the first ceil(L/C) ticks and no others before the
wrap: the wrapping tick emits nothing and resets the cursor to dataStart, the
tick after the wrap resumes emitting from dataStart, and the cursor is never
negative. -/
theorem playback_loop_chunk_count (L C : Nat) (hC : 0 < C) (hL : 0 < L) :
    (∀ k, k < ceilChunks L C → emitsAt L C k = true) ∧
    emitCount L C (ceilChunks L C) = ceilChunks L C ∧
    emitsAt L C (ceilChunks L C) = false ∧
    cursorAfter L C (ceilChunks L C + 1) = dataStart ∧
    emitCount L C (ceilChunks L C + 1) = ceilChunks L C ∧
    emitsAt L C (ceilChunks L C + 1) = true ∧
    (∀ n, 0 ≤ cursorAfter L C n) := by
  have hend : ¬ (44 + (L : Int)) < 44 + (L : Int) := by omega
  have hwrapE : emitsAt L C (ceilChunks L C) = false := by
    unfold emitsAt
    rw [cursor_at_ceil L C hC, playTick_end L C _ hend]
  have hwrapC : cursorAfter L C (ceilChunks L C + 1) = dataStart := by
    show (playTick L C (cursorAfter L C (ceilChunks L C))).1 = dataStart
    rw [cursor_at_ceil L C hC, playTick_end L C _ hend]
  refine ⟨emits_lt_ceil L C hC, emitCount_le_ceil L C hC _ (Nat.le_refl _),
    hwrapE, hwrapC, ?_, ?_, cursor_nonneg L C⟩
  · show emitCount L C (ceilChunks L C) + (if emitsAt L C (ceilChunks L C) then 1 else 0) = _
    rw [emitCount_le_ceil L C hC _ (Nat.le_refl _), hwrapE]
    rfl
  · unfold emitsAt
    rw [hwrapC]
    have h44 : (dataStart : Int) < 44 + (L : Int) := by
      unfold dataStart
      omega
    rw [playTick_avail L C _ h44]
    simp only [decide_eq_true_eq]
    have hC2 : (0 : Int) < (C : Int) := by exact_mod_cast hC
    have hL2 : (0 : Int) < (L : Int) := by exact_mod_cast hL
    unfold dataStart
    omega

/-- Closed witness for C3: payload of 5 bytes, chunk size 2 (ceil = 3 chunks,
wrap at tick 3, resume at tick 4). -/
theorem playback_loop_chunk_count_witness :
    emitsAt 5 2 0 = true ∧ emitCount 5 2 3 = 3 ∧ emitsAt 5 2 3 = false ∧
      cursorAfter 5 2 4 = dataStart ∧ emitsAt 5 2 4 = true := by
  have h := playback_loop_chunk_count 5 2 (by decide) (by decide)
  exact ⟨h.1 0 (by decide), h.2.1, h.2.2.1, h.2.2.2.1, h.2.2.2.2.2.1⟩

theorem loadScheduleLoop_filterMap (ls : List (List Char)) :
    ∀ acc, loadScheduleLoop ls acc = acc ++ ls.filterMap parseLine := by
  induction ls with
  | nil => intro acc; simp [loadScheduleLoop]
  | cons l ls2 ih =>
    intro acc
    show (match parseLine l with
      | none => loadScheduleLoop ls2 acc
      | some r => loadScheduleLoop ls2 (acc ++ [r])) = _
    cases h : parseLine l with
    | none => simp [List.filterMap_cons, h, ih]
    | some r => simp [List.filterMap_cons, h, ih, List.append_assoc]

theorem parseLine_skips (l : List Char)
    (h : startsWithHash (trimChars l) = true ∨ trimChars l = []) :
    parseLine l = none := by
  rcases h with h | h
  · simp [parseLine, h]
  · simp [parseLine, h]

theorem parseLine_valid (l : List Char) (r : TimeRange)
    (h : parseLine l = some r) :
    0 ≤ r.startMin ∧ r.startMin < r.endMin ∧ r.endMin ≤ 1440 ∧ r.vol ≤ 255 := by
  simp only [parseLine] at h
  split at h
  · exact absurd h (by simp)
  · split at h
    · exact absurd h (by simp)
    · split at h
      · exact absurd h (by simp)
      · split at h
        · exact absurd h (by simp)
        · split at h
          · exact absurd h (by simp)
          · split at h
            · next hcond =>
              injection h with h2
              subst h2
              dsimp only
              omega
            · exact absurd h (by simp)

/-- C6: schedule loading skips each comment, blank or invalid line
individually, keeps every valid line in file order (the loaded schedule is
exactly the in-order filter of parseable lines), reports failure iff zero
valid ranges result, and every kept range satisfies the numeric validation;
the three-line example keeps exactly its two well-formed lines. -/
theorem schedule_load_skips_bad_lines :
    ∀ lines : List (List Char),
      (loadSchedule lines).1 = lines.filterMap parseLine ∧
      ((loadSchedule lines).2 = false ↔ lines.filterMap parseLine = []) ∧
      (∀ l : List Char, startsWithHash (trimChars l) = true ∨ trimChars l = [] →
        parseLine l = none) ∧
      (∀ (l : List Char) (r : TimeRange), parseLine l = some r →
        0 ≤ r.startMin ∧ r.startMin < r.endMin ∧ r.endMin ≤ 1440 ∧ r.vol ≤ 255) ∧
      loadSchedule
          [("08:00-09:00 80".toList), ("bad line".toList), ("22:00-23:00 20".toList)] =
        ([⟨480, 540, 80⟩, ⟨1320, 1380, 20⟩], true) := by
  intro lines
  have hload : loadSchedule lines = (lines.filterMap parseLine,
      !(lines.filterMap parseLine).isEmpty) := by
    unfold loadSchedule
    rw [loadScheduleLoop_filterMap lines []]
    rfl
  refine ⟨by rw [hload], ?_, parseLine_skips, parseLine_valid, by decide⟩
  rw [hload]
  simp [List.isEmpty_iff]

/-- Closed witness for C6: a comment line is skipped, and the kept range
480-540 volume 80 satisfies the validation bounds. -/
theorem schedule_load_skips_bad_lines_witness :
    parseLine ("# comment".toList) = none ∧
      (0 ≤ (⟨480, 540, 80⟩ : TimeRange).startMin ∧
        (⟨480, 540, 80⟩ : TimeRange).startMin < (⟨480, 540, 80⟩ : TimeRange).endMin ∧
        (⟨480, 540, 80⟩ : TimeRange).endMin ≤ 1440 ∧
        (⟨480, 540, 80⟩ : TimeRange).vol ≤ 255) :=
  ⟨(schedule_load_skips_bad_lines []).2.2.1 ("# comment".toList) (Or.inl (by decide)),
    (schedule_load_skips_bad_lines []).2.2.2.1 ("08:00-09:00 80".toList)
      ⟨480, 540, 80⟩ (by decide)⟩

end PinkNoise
